import Mathlib

set_option maxHeartbeats 1000000
set_option maxRecDepth 8000

/-!
Verification development for the Lua API documentation generator
(scripts/generate-lua-docs.py).

Strings are modelled as `List Char`.  Each definition below is a direct
translation of the corresponding Python routine; regular expressions used by
the source are specialised to equivalent character-level scanners (the
patterns involved are deterministic, so greedy matching with backtracking
coincides with the straightforward scan).
-/

/-- Python whitespace class as used by `str.strip`, `\s` in the source regexes. -/
def isPySpace (c : Char) : Bool :=
  c == ' ' || c == '\t' || c == '\n' || c == '\r' || c == '\x0b' || c == '\x0c'

/-- The regex word class `\w` (ASCII range; all inputs of the generator are ASCII). -/
def isWordChar (c : Char) : Bool :=
  c.isAlpha || c.isDigit || c == '_'

/-- Remove trailing Python whitespace (the right half of `str.strip`). -/
def dropTrailingWs : List Char → List Char
  | [] => []
  | c :: r =>
    match dropTrailingWs r with
    | [] => if isPySpace c then [] else [c]
    | x :: xs => c :: x :: xs

/-- Python `str.strip()`. -/
def pystrip (l : List Char) : List Char :=
  dropTrailingWs (l.dropWhile isPySpace)

/-- Python `str.split(sep)` for a one-character separator; `"".split` gives `[""]`. -/
def splitOnChar (sep : Char) : List Char → List (List Char)
  | [] => [[]]
  | c :: rest =>
    if c = sep then [] :: splitOnChar sep rest
    else
      match splitOnChar sep rest with
      | [] => [[c]]
      | h :: t => (c :: h) :: t

/-- Python `sep.join(parts)`. -/
def joinWith (sep : List Char) : List (List Char) → List Char
  | [] => []
  | [x] => x
  | x :: y :: xs => x ++ sep ++ joinWith sep (y :: xs)

/-- Python `'\n'.join(parts)`. -/
def joinLines (ls : List (List Char)) : List Char :=
  joinWith [ '\n' ] ls

/-- Python substring containment `pat in line`. -/
def containsSub (pat : List Char) : List Char → Bool
  | [] => pat.isEmpty
  | c :: r => pat.isPrefixOf (c :: r) || containsSub pat r

/-- Worker for `replaceSub`: left-to-right non-overlapping replacement.  The
fuel argument (instantiated with the length of the text, which every step
decreases by at least one) only makes the recursion structural; the
exhaustion branch is unreachable. -/
def replaceSubFuel (p : Char) (ps rep : List Char) : Nat → List Char → List Char
  | 0, l => l
  | _ + 1, [] => []
  | fuel + 1, c :: rest =>
    if (p :: ps).isPrefixOf (c :: rest) then
      rep ++ replaceSubFuel p ps rep fuel (rest.drop ps.length)
    else c :: replaceSubFuel p ps rep fuel rest

/-- Python `str.replace(pat, rep)` (all occurrences, left to right). -/
def replaceSub (pat rep l : List Char) : List Char :=
  match pat with
  | [] => l
  | p :: ps => replaceSubFuel p ps rep l.length l

/-- `re.sub(r'^\s*\*\s?', '', line)`: strip a leading asterisk continuation
marker (preceded by any whitespace, followed by at most one whitespace). -/
def sub_star (l : List Char) : List Char :=
  match l.dropWhile isPySpace with
  | '*' :: rest =>
    match rest with
    | c :: rest2 => if isPySpace c then rest2 else c :: rest2
    | [] => []
  | _ => l

/-- `re.sub(r'^/\*\*\s*', '', line)`: strip a leading block-open marker. -/
def sub_open (l : List Char) : List Char :=
  if "/**".data.isPrefixOf l then (l.drop 3).dropWhile isPySpace else l

/-- `re.sub(r'\s*\*/$', '', line)`: strip a trailing block-close marker and
the whitespace immediately before it. -/
def sub_close (l : List Char) : List Char :=
  match l.reverse with
  | '/' :: '*' :: r => (r.dropWhile isPySpace).reverse
  | _ => l

/-- The three normalisation substitutions applied to every line, in source order. -/
def normLine (l : List Char) : List Char :=
  sub_close (sub_open (sub_star l))

/-- Python `line.startswith('@')`. -/
def startsAt (l : List Char) : Bool :=
  match l with
  | '@' :: _ => true
  | _ => false

/-- `re.match(r'@param\s+(\w+)\s+\(([^)]+)\)\s*(.*)', line)`, returning
`(name, type, rest-after-whitespace)` on success. -/
def matchParam (l : List Char) : Option (List Char × List Char × List Char) :=
  if "@param".data.isPrefixOf l then
    let r0 := l.drop 6
    let r1 := r0.dropWhile isPySpace
    let nm := r1.takeWhile isWordChar
    let r2 := r1.dropWhile isWordChar
    let r3 := r2.dropWhile isPySpace
    if r0.takeWhile isPySpace = [] ∨ nm = [] ∨ r2.takeWhile isPySpace = [] then none
    else
      match r3 with
      | '(' :: r4 =>
        let ty := r4.takeWhile (fun c => !(c == ')'))
        let r5 := r4.dropWhile (fun c => !(c == ')'))
        if ty = [] then none
        else
          match r5 with
          | ')' :: r6 => some (nm, ty, r6.dropWhile isPySpace)
          | _ => none
      | _ => none
  else none

/-- `re.match(r'@return\s+\(([^)]+)\)\s*(.*)', line)`, returning
`(type, rest-after-whitespace)` on success. -/
def matchReturn (l : List Char) : Option (List Char × List Char) :=
  if "@return".data.isPrefixOf l then
    let r0 := l.drop 7
    let r1 := r0.dropWhile isPySpace
    if r0.takeWhile isPySpace = [] then none
    else
      match r1 with
      | '(' :: r4 =>
        let ty := r4.takeWhile (fun c => !(c == ')'))
        let r5 := r4.dropWhile (fun c => !(c == ')'))
        if ty = [] then none
        else
          match r5 with
          | ')' :: r6 => some (ty, r6.dropWhile isPySpace)
          | _ => none
      | _ => none
  else none

/-- `re.match(r'@see\s+(.*)', line)`, returning the text after the tag. -/
def matchSee (l : List Char) : Option (List Char) :=
  if "@see".data.isPrefixOf l then
    let r0 := l.drop 4
    if r0.takeWhile isPySpace = [] then none
    else some (r0.dropWhile isPySpace)
  else none

/-- One `@param` record: `{'name': ..., 'type': ..., 'desc': ...}`. -/
structure Param where
  name : List Char
  type : List Char
  desc : List Char
deriving Repr, DecidableEq

/-- One `@return` record: `{'type': ..., 'desc': ...}`. -/
structure Ret where
  type : List Char
  desc : List Char
deriving Repr, DecidableEq

/-- The mutable state of the line loop of `parse_docstring`: the `result`
dictionary (with `description` still a list of lines) plus the example buffer
and the two mode flags. -/
structure PState where
  signature : List Char := []
  descLines : List (List Char) := []
  params : List Param := []
  returns : List Ret := []
  examples : List (List Char) := []
  see_also : List (List Char) := []
  current_example : List (List Char) := []
  in_example : Bool := false
  in_return_list : Bool := false
deriving Repr, DecidableEq

/-- The dictionary returned by `parse_docstring`. -/
structure ParseResult where
  signature : List Char
  description : List Char
  params : List Param
  returns : List Ret
  examples : List (List Char)
  see_also : List (List Char)
deriving Repr, DecidableEq

/-- Flush the example buffer into `examples` if it is non-empty
(`if current_example: result['examples'].append('\n'.join(current_example))`). -/
def exFlush (st : PState) : List (List Char) :=
  if st.current_example = [] then st.examples
  else st.examples ++ [joinLines st.current_example]

/-- `result['returns'][-1]['desc'] += extra`, as an `Option` so that an access
to the last element of an empty list is `none` (a Python `IndexError`). -/
def updLastRet (rs : List Ret) (extra : List Char) : Option (List Ret) :=
  match rs.getLast? with
  | none => none
  | some r => some (rs.dropLast ++ [ { r with desc := r.desc ++ extra } ])

/-- `result['params'][-1]['desc'] += extra`, as an `Option` (see `updLastRet`). -/
def updLastParam (ps : List Param) (extra : List Char) : Option (List Param) :=
  match ps.getLast? with
  | none => none
  | some p => some (ps.dropLast ++ [ { p with desc := p.desc ++ extra } ])

/-- One iteration of the `for i, line in enumerate(lines)` loop of
`parse_docstring`.  The result is `none` exactly when the Python code would
raise an `IndexError` through an unguarded `[-1]` access; the theorem
`processLineO_isSome` below shows this never happens. -/
def processLineO (st : PState) (rawLine : List Char) : Option PState :=
  let line := normLine rawLine
  if st.signature = [] ∧ (containsSub "world.".data line = true ∨ containsSub "utils.".data line = true) then
    some { st with signature := pystrip line }
  else
    match matchParam line with
    | some (nm, ty, d) =>
      some { st with in_example := false, in_return_list := false,
                     params := st.params ++ [⟨nm, ty, pystrip d⟩] }
    | none =>
    match matchReturn line with
    | some (ty, d) =>
      some { st with in_example := false, in_return_list := true,
                     returns := st.returns ++ [⟨ty, pystrip d⟩] }
    | none =>
    match matchSee line with
    | some names =>
      some { st with in_example := false, in_return_list := false,
                     see_also := st.see_also ++ (splitOnChar ',' names).map pystrip }
    | none =>
    if pystrip line = "@example".data then
      some { st with examples := exFlush st, current_example := [],
                     in_example := true, in_return_list := false }
    else if st.in_example = true ∧ ¬(startsAt line = true ∨ (line = [] ∧ st.current_example = [])) then
      some { st with current_example := st.current_example ++ [line] }
    else
      let st1 := if st.in_example = true then
          { st with examples := exFlush st, current_example := [], in_example := false }
        else st
      if st1.in_return_list = true ∧ (pystrip line).head? = some '-' then
        if st1.returns = [] then some st1
        else (updLastRet st1.returns ('\n' :: ' ' :: ' ' :: pystrip line)).map
          (fun rs => { st1 with returns := rs })
      else if pystrip line = [] ∧ st1.descLines = [] then
        some st1
      else if "  ".data.isPrefixOf line = true ∧ (st1.params ≠ [] ∨ st1.returns ≠ []) then
        if st1.in_return_list = true ∧ st1.returns ≠ [] ∧ ¬(startsAt line = true) then
          (updLastRet st1.returns ('\n' :: ' ' :: ' ' :: pystrip line)).map
            (fun rs => { st1 with returns := rs })
        else if st1.params ≠ [] ∧ ¬(startsAt line = true) then
          (updLastParam st1.params (' ' :: pystrip line)).map
            (fun ps => { st1 with params := ps })
        else some st1
      else if ¬(startsAt line = true) then
        some { st1 with descLines := st1.descLines ++ [pystrip line] }
      else
        some st1

/-- Total version of the loop body (the `none` case is unreachable,
see `processLineO_isSome`). -/
def processLine (st : PState) (rawLine : List Char) : PState :=
  (processLineO st rawLine).getD st

/-- Initial `result` dictionary / flag state. -/
def initState : PState := {}

/-- The final steps of `parse_docstring`: flush a still-open example buffer
and join the description lines. -/
def finalize (st : PState) : ParseResult :=
  { signature := st.signature,
    description := pystrip (joinLines st.descLines),
    params := st.params,
    returns := st.returns,
    examples := exFlush st,
    see_also := st.see_also }

/-- The state after the line loop of `parse_docstring comment`. -/
def parseStateOf (comment : List Char) : PState :=
  (splitOnChar '\n' (pystrip comment)).foldl processLine initState

/-- `parse_docstring` from the source (lines 73-183). -/
def parse_docstring (comment : List Char) : ParseResult :=
  finalize (parseStateOf comment)

/-- The line loop with the `IndexError` possibility made explicit. -/
def parseDocstringO (comment : List Char) : Option PState :=
  (splitOnChar '\n' (pystrip comment)).foldlM processLineO initState

/-! ## Comment extractor (`extract_functions_from_file`, lines 186-230) -/

/-- Content of a comment block up to the first close marker: the regex group
`((?:[^*]|\*(?!/))*)` followed by `\*/`; returns the group and the rest of the
text after the close marker. -/
def takeUntilClose : List Char → Option (List Char × List Char)
  | [] => none
  | [_] => none
  | c :: d :: rest =>
    if c = '*' ∧ d = '/' then some ([], rest)
    else
      match takeUntilClose (d :: rest) with
      | some (acc, r) => some (c :: acc, r)
      | none => none

/-- Try to match the pattern
`/\*\*((?:[^*]|\*(?!/))*)\*/\s*\n\s*int\s+(L_\w+)\s*\(\s*lua_State`
at the start of `s`; on success returns the docstring group, the C function
name group and the rest of the text after the match. -/
def tryMatch (s : List Char) : Option (List Char × List Char × List Char) :=
  if "/**".data.isPrefixOf s then
    match takeUntilClose (s.drop 3) with
    | none => none
    | some (doc, r1) =>
      let r2 := r1.dropWhile isPySpace
      if (r1.takeWhile isPySpace).contains '\n' = true ∧ "int".data.isPrefixOf r2 then
        let r3 := r2.drop 3
        let r4 := r3.dropWhile isPySpace
        if r3.takeWhile isPySpace ≠ [] ∧ "L_".data.isPrefixOf r4 then
          let w := (r4.drop 2).takeWhile isWordChar
          let r6 := (r4.drop 2).dropWhile isWordChar
          let r7 := r6.dropWhile isPySpace
          if w ≠ [] ∧ r7.head? = some '(' then
            let r9 := (r7.drop 1).dropWhile isPySpace
            if "lua_State".data.isPrefixOf r9 then
              some (doc, 'L' :: '_' :: w, r9.drop 9)
            else none
          else none
        else none
      else none
  else none

/-- `re.finditer` over the content: scan left to right, emit each
non-overlapping leftmost match together with its start offset, and resume
after the end of the match. -/
def scanAux : Nat → List Char → Nat → List (List Char × List Char × Nat)
  | 0, _, _ => []
  | Nat.succ fuel, s, pos =>
    match s with
    | [] => []
    | _ :: rest =>
      match tryMatch s with
      | some (doc, nm, r) =>
        (doc, nm, pos) :: scanAux fuel r (pos + (s.length - r.length))
      | none => scanAux fuel rest (pos + 1)

/-- All matches of the docstring-plus-declaration pattern in `content`,
with their start offsets. -/
def scanMatches (content : List Char) : List (List Char × List Char × Nat) :=
  scanAux content.length content 0

/-- The `(rawComment, entryPointName, lineNumber)` triples produced by the
extractor, in document order; `lineNumber` is
`content[:match.start()].count('\n') + 1`. -/
def extractTriples (content : List Char) : List (List Char × List Char × Nat) :=
  (scanMatches content).map (fun t => (t.1, t.2.1, (content.take t.2.2).count '\n' + 1))

/-- `re.match(r'(?:world|utils)\.(\w+)', signature)`: the Lua name in a
namespace-prefixed signature. -/
def matchNameFromSig (sig : List Char) : Option (List Char) :=
  if "world.".data.isPrefixOf sig then
    let w := (sig.drop 6).takeWhile isWordChar
    if w = [] then none else some w
  else if "utils.".data.isPrefixOf sig then
    let w := (sig.drop 6).takeWhile isWordChar
    if w = [] then none else some w
  else none

/-- A documented Lua API function (the `LuaFunction` dataclass; the
`category` field is assigned by the driver and irrelevant here). -/
structure LuaFunction where
  name : List Char
  signature : List Char := []
  description : List Char := []
  params : List Param := []
  returns : List Ret := []
  examples : List (List Char) := []
  see_also : List (List Char) := []
  source_file : List Char := []
  line_number : Nat := 0
deriving Repr, DecidableEq

/-- Build one `LuaFunction` from a match, as in the loop body of
`extract_functions_from_file` (lines 196-228). -/
def mkFunction (fname doc cname : List Char) (lineno : Nat) : LuaFunction :=
  let parsed := parse_docstring doc
  let sign := parsed.signature
  let fallback := if "L_".data.isPrefixOf cname then cname.drop 2 else cname
  let lua_name :=
    if sign ≠ [] then
      match matchNameFromSig sign with
      | some nm => nm
      | none => fallback
    else fallback
  let sign2 := if sign ≠ [] then sign else "world.".data ++ lua_name ++ "(...)".data
  { name := lua_name,
    signature := sign2,
    description := parsed.description,
    params := parsed.params,
    returns := parsed.returns,
    examples := parsed.examples,
    see_also := parsed.see_also,
    source_file := fname,
    line_number := lineno }

/-- `extract_functions_from_file`, with the file given as `(name, content)`. -/
def extract_functions_from_file (fname content : List Char) : List LuaFunction :=
  (extractTriples content).map (fun t => mkFunction fname t.1 t.2.1 t.2.2)

/-! ## Page renderers (lines 233-395) -/

/-- `f"-{version}" if version else ""`. -/
def versionSuffix (version : List Char) : List Char :=
  if version ≠ [] then '-' :: version else []

/-- Decimal digits of a line number or count. -/
def natChars (n : Nat) : List Char :=
  (Nat.repr n).data

/-- `.replace('|', '\\|')` (markdown table escaping of cell text). -/
def escPipe (l : List Char) : List Char :=
  replaceSub [ '|' ] [ '\\', '|' ] l

/-- `.replace('\n', ' ')`. -/
def replaceNl (l : List Char) : List Char :=
  replaceSub [ '\n' ] [ ' ' ] l

/-- One row of the per-function parameter table (line 259-260):
`f"| `{param['name']}` | {param['type']} | {desc} |"` where only `desc`
is pipe-escaped. -/
def paramRow (p : Param) : List Char :=
  "| `".data ++ p.name ++ "` | ".data ++ p.type ++ " | ".data
    ++ replaceNl (escPipe p.desc) ++ " |".data

/-- The lines rendered for one return entry (lines 267-272). -/
def retLines (r : Ret) : List (List Char) :=
  let descs := splitOnChar '\n' r.desc
  ("**".data ++ r.type ++ "**: ".data ++ descs.headD []) :: descs.tail

/-- A `@see` reference rendered as a wiki link when the cleaned name is a
known function, else as inert code text (lines 289-296). -/
def seeLink (vs : List Char) (allNames : List (List Char)) (nm : List Char) : List Char :=
  let clean := replaceSub "world.".data [] (replaceSub "utils.".data [] nm)
  if allNames.contains clean then
    "[[".data ++ nm ++ "|Lua-API".data ++ vs ++ "-".data ++ clean ++ "]]".data
  else "`".data ++ nm ++ "`".data

/-- Concatenation of a list of lists (`itertools.chain` style). -/
def flatJoin {α : Type} (ls : List (List α)) : List α :=
  ls.foldr (fun a b => a ++ b) []

/-- A category of Lua functions (the `Category` dataclass). -/
structure Category where
  name : List Char
  title : List Char
  description : List Char := []
  functions : List LuaFunction := []
deriving Repr, DecidableEq

/-- `generate_function_page` (lines 233-306); `allNames` stands for the key
set of the `all_functions` dictionary. -/
def generate_function_page (func : LuaFunction) (cat : Category) (version : List Char)
    (allNames : List (List Char)) : List Char :=
  let vs := versionSuffix version
  let hdr := [ "# ".data ++ func.name, [],
    "**Category:** [[".data ++ cat.title ++ "|Lua-API".data ++ vs ++ "-".data ++ cat.name ++ "]]".data, [],
    "```lua".data, func.signature, "```".data, [] ]
  let descL := if func.description ≠ [] then [func.description, []] else []
  let paramsL := if func.params ≠ [] then
      [ "## Parameters".data, [], "| Name | Type | Description |".data,
        "|------|------|-------------|".data ] ++ func.params.map paramRow ++ [[]]
    else []
  let returnsL := if func.returns ≠ [] then
      [ "## Returns".data, [] ] ++ flatJoin (func.returns.map retLines) ++ [[]]
    else []
  let examplesL := if func.examples ≠ [] then
      [ "## Example".data, [] ]
        ++ flatJoin (func.examples.map (fun e => [ "```lua".data, e, "```".data, [] ]))
    else []
  let seeL := if func.see_also ≠ [] then
      [ "## See Also".data, [],
        joinWith ", ".data (func.see_also.map (seeLink vs allNames)), [] ]
    else []
  let footer := [ "---".data, [],
    "*Source: `".data ++ func.source_file ++ "` line ".data ++ natChars func.line_number ++ "*".data ]
  joinLines (hdr ++ descL ++ paramsL ++ returnsL ++ examplesL ++ seeL ++ footer)

/-- The first-line-plus-truncation summary used by the category table
(lines 326-329, before pipe escaping). -/
def truncFirstLine (f : LuaFunction) : List Char :=
  let d := if f.description ≠ [] then (splitOnChar '\n' f.description).headD [] else []
  if d.length > 80 then d.take 77 ++ "...".data else d

/-- One row of the category function table (lines 325-331). -/
def categoryRow (vs : List Char) (f : LuaFunction) : List Char :=
  "| [[".data ++ f.name ++ "|Lua-API".data ++ vs ++ "-".data ++ f.name ++ "]] | ".data
    ++ escPipe (truncFirstLine f) ++ " |".data

/-- Python `str.lower()`-then-lexicographic comparison used as sort key. -/
def lexLe : List Char → List Char → Bool
  | [], _ => true
  | _ :: _, [] => false
  | a :: as, b :: bs => if a = b then lexLe as bs else decide (a < b)

/-- `sorted(category.functions, key=lambda f: f.name.lower())` (stable). -/
def sortFuncs (fs : List LuaFunction) : List LuaFunction :=
  fs.mergeSort (fun a b => lexLe (a.name.map Char.toLower) (b.name.map Char.toLower))

/-- `generate_category_page` (lines 309-340). -/
def generate_category_page (cat : Category) (version : List Char) : List Char :=
  let vs := versionSuffix version
  joinLines ([ "# ".data ++ cat.title, [], cat.description, [],
    "**".data ++ natChars cat.functions.length ++ " functions**".data, [],
    "| Function | Description |".data, "|----------|-------------|".data ]
    ++ (sortFuncs cat.functions).map (categoryRow vs)
    ++ [ [], "---".data, [], "[[Back to API Index|Lua-API".data ++ vs ++ "]]".data ])

/-- One row of the index category table (lines 363-367). -/
def indexCatRow (vs : List Char) (cid : List Char) (cat : Category) : List Char :=
  "| [[".data ++ cat.title ++ "|Lua-API".data ++ vs ++ "-".data ++ cid ++ "]] | ".data
    ++ natChars cat.functions.length ++ " | ".data ++ escPipe cat.description ++ " |".data

/-- The letter-grouped alphabetical function list of the index page
(lines 379-386); `cur` is the `current_letter` loop variable. -/
def indexFuncLines (vs : List Char) : List LuaFunction → List Char → List (List Char)
  | [], _ => []
  | f :: fs, cur =>
    let first := [(f.name.headD ' ').toUpper]
    let link := "- [[".data ++ f.name ++ "|Lua-API".data ++ vs ++ "-".data ++ f.name ++ "]]".data
    if first ≠ cur then
      ('\n' :: "### ".data ++ first ++ [ '\n' ]) :: link :: indexFuncLines vs fs first
    else link :: indexFuncLines vs fs cur

/-- `generate_index_page` (lines 343-395); the categories dictionary is an
association list, `today` models `datetime.now().strftime('%Y-%m-%d')`. -/
def generate_index_page (cats : List (List Char × Category)) (version : List Char)
    (allFuncs : List LuaFunction) (today : List Char) : List Char :=
  let vs := versionSuffix version
  let vd := if version ≠ [] then " v".data ++ version else []
  let total := flatJoin (cats.map (fun c => c.2.functions)) |>.length
  let sortedCats := cats.mergeSort (fun a b => lexLe a.1 b.1)
  let sortedFuncs := sortFuncs allFuncs
  joinLines ([ "# Lua API Reference".data ++ vd, [],
    "Complete API documentation for Mushkin's Lua scripting interface.".data, [],
    "**".data ++ natChars total ++ " functions** across **".data
      ++ natChars cats.length ++ " categories**".data, [],
    "## Categories".data, [],
    "| Category | Functions | Description |".data,
    "|----------|-----------|-------------|".data ]
    ++ sortedCats.map (fun c => indexCatRow vs c.1 c.2)
    ++ [ [], "## All Functions (Alphabetical)".data, [] ]
    ++ indexFuncLines vs sortedFuncs []
    ++ [ [], "---".data, [],
      "*Generated from source code on ".data ++ today ++ "*".data ])

/-! ## Specification-side definitions and concrete inputs -/

/-- No pipe character occurs without an immediately preceding backslash:
the property demanded of escaped markdown cell content. -/
def noUPAux : Bool → List Char → Bool
  | _, [] => true
  | prevBS, c :: rest =>
    if c = '|' then prevBS && noUPAux false rest
    else noUPAux (c = '\\') rest

/-- See `noUPAux`: the flag records whether the previous character was a
backslash. -/
def noUnescapedPipe (l : List Char) : Bool :=
  noUPAux false l

/-- Modelled from the words of the specification (not the code): the claimed
category-index summary rule, "the first line of the description when that
line has length 80 or less, and otherwise the first 77 characters followed
by an ellipsis". -/
def specSummary (f : LuaFunction) : List Char :=
  let fl := f.description.takeWhile (fun c => !(c == '\n'))
  if fl.length ≤ 80 then fl else fl.take 77 ++ "...".data

/-- The comment block plus declaration of the concrete scenario of the spec,
exactly as the claim writes it (one space of indentation, no asterisk line
markers). -/
def c1input : List Char :=
  "/** world.Note(text)\n Displays a note.\n @param text (string) text to show\n @return (boolean) success */\nint L_Note(lua_State *L)\n".data

/-- The same scenario written the way the documented C++ sources write it,
with asterisk line markers in front of the interior lines. -/
def c1fixed : List Char :=
  "/** world.Note(text)\n * Displays a note.\n * @param text (string) text to show\n * @return (boolean) success */\nint L_Note(lua_State *L)\n".data

/-- A block whose second line is a malformed `@param` tag (no parenthesised
type). -/
def c2input : List Char :=
  "world.Foo()\n@param x missing type\nhello".data

/-- A function record whose parameter type contains a pipe character. -/
def c3func : LuaFunction :=
  { name := "Foo".data
    signature := "world.Foo(x)".data
    params := [⟨ "x".data, "a|b".data, "d".data⟩]
    source_file := "world_output.cpp".data
    line_number := 3 }

/-- A category for rendering the pages of `c3func`. -/
def c3cat : Category :=
  { name := "Output".data
    title := "Output Functions".data
    description := "Output functions.".data }

/-- A block with one well-formed `@param` line that mentions `world.` before
any signature has been captured. -/
def c4input : List Char :=
  "@param a (string) see world.Foo stuff".data

/-- A block whose `@return` tag is immediately followed by a dash-prefixed
bullet that contains `world.`, while no signature has been captured yet. -/
def c5input : List Char :=
  "@return (number) code\n- see world.Foo".data

/-- A block ending in an `@example` whose first body line contains `world.`
while no signature has been captured yet. -/
def c7input : List Char :=
  "@example\nworld.Note(1)\nprint(x)".data

/-- A short text in which the extraction pattern never matches. -/
def c9empty : List Char :=
  "hello".data

/-- Version label used by the concrete rendering scenarios. -/
def version10 : List Char := "1.0".data

/-- Source file name used by the concrete extraction scenarios. -/
def srcName : List Char := "world_output.cpp".data

/-- The function page rendered for `c3func`. -/
def c3page : List Char :=
  generate_function_page c3func c3cat version10 [c3func.name]

/-- The unescaped row content that `c3page` should not contain if every cell
were escaped. -/
def c3rawRow : List Char := "| a|b | d |".data

/-- The escaped spelling of the pipe-carrying type. -/
def c3escType : List Char := "a\\|b".data

/-! ## Helper lemmas -/

theorem updLastRet_isSome (rs : List Ret) (e : List Char) (h : rs ≠ []) :
    (updLastRet rs e).isSome := by
  unfold updLastRet
  cases hg : rs.getLast? with
  | none => exact absurd (List.getLast?_eq_none_iff.mp hg) h
  | some r => simp

theorem updLastParam_isSome (ps : List Param) (e : List Char) (h : ps ≠ []) :
    (updLastParam ps e).isSome := by
  unfold updLastParam
  cases hg : ps.getLast? with
  | none => exact absurd (List.getLast?_eq_none_iff.mp hg) h
  | some p => simp

/-- Every guarded `[-1]` access of the loop body is reachable only with a
non-empty list, so one loop iteration never raises. -/
theorem processLineO_isSome (st : PState) (l : List Char) :
    (processLineO st l).isSome := by
  unfold processLineO
  dsimp only
  repeat' split
  all_goals (try rfl)
  all_goals rw [Option.isSome_map']
  all_goals first
    | (apply updLastRet_isSome; first
        | assumption
        | (rename_i hc; exact hc.2.1))
    | (apply updLastParam_isSome; first
        | assumption
        | (rename_i hc; exact hc.1))

/-- The total loop body agrees with the instrumented one. -/
theorem processLineO_eq_some (st : PState) (l : List Char) :
    processLineO st l = some (processLine st l) := by
  unfold processLine
  cases h : processLineO st l with
  | none => exact absurd (h ▸ processLineO_isSome st l) (by simp)
  | some st2 => simp

theorem foldlM_processLineO_eq (ls : List (List Char)) :
    ∀ st : PState, ls.foldlM processLineO st = some (ls.foldl processLine st) := by
  induction ls with
  | nil => intro st; rfl
  | cons l ls ih =>
    intro st
    rw [List.foldlM_cons, processLineO_eq_some, List.foldl_cons]
    exact ih (processLine st l)

theorem processLine_param (st : PState) (l nm ty d : List Char)
    (hsig : ¬(st.signature = [] ∧ (containsSub "world.".data (normLine l) = true
      ∨ containsSub "utils.".data (normLine l) = true)))
    (hp : matchParam (normLine l) = some (nm, ty, d)) :
    processLine st l = { st with in_example := false, in_return_list := false,
                                 params := st.params ++ [⟨nm, ty, pystrip d⟩] } := by
  unfold processLine processLineO
  dsimp only
  rw [if_neg hsig, hp]
  rfl

theorem processLine_return (st : PState) (l ty d : List Char)
    (hsig : ¬(st.signature = [] ∧ (containsSub "world.".data (normLine l) = true
      ∨ containsSub "utils.".data (normLine l) = true)))
    (hp : matchParam (normLine l) = none)
    (hr : matchReturn (normLine l) = some (ty, d)) :
    processLine st l = { st with in_example := false, in_return_list := true,
                                 returns := st.returns ++ [⟨ty, pystrip d⟩] } := by
  unfold processLine processLineO
  dsimp only
  rw [if_neg hsig, hp, hr]
  rfl

theorem updLastRet_concat (R : List Ret) (e : Ret) (x : List Char) :
    updLastRet (R ++ [e]) x = some (R ++ [ { e with desc := e.desc ++ x } ]) := by
  unfold updLastRet
  rw [List.getLast?_concat, List.dropLast_concat]

theorem updLastParam_concat (R : List Param) (e : Param) (x : List Char) :
    updLastParam (R ++ [e]) x = some (R ++ [ { e with desc := e.desc ++ x } ]) := by
  unfold updLastParam
  rw [List.getLast?_concat, List.dropLast_concat]

theorem startsAt_iff (l : List Char) : startsAt l = true ↔ ∃ r, l = '@' :: r := by
  unfold startsAt
  constructor
  · intro h
    split at h
    · rename_i r; exact ⟨_, rfl⟩
    · cases h
  · rintro ⟨r, rfl⟩
    rfl

theorem pystrip_cons_head (c : Char) (r : List Char) (hc : isPySpace c = false) :
    (pystrip (c :: r)).head? = some c := by
  unfold pystrip
  rw [List.dropWhile_cons, hc]
  simp only [Bool.false_eq_true, if_false]
  unfold dropTrailingWs
  split
  · rw [hc]; rfl
  · rfl

theorem processLine_dash (st : PState) (l : List Char) (R : List Ret) (e : Ret)
    (hsig : ¬(st.signature = [] ∧ (containsSub "world.".data (normLine l) = true
      ∨ containsSub "utils.".data (normLine l) = true)))
    (hp : matchParam (normLine l) = none)
    (hr : matchReturn (normLine l) = none)
    (hs : matchSee (normLine l) = none)
    (hex : pystrip (normLine l) ≠ "@example".data)
    (hie : st.in_example = false)
    (hirl : st.in_return_list = true)
    (hd : (pystrip (normLine l)).head? = some '-')
    (hret : st.returns = R ++ [e]) :
    processLine st l = { st with returns :=
      R ++ [ { e with desc := e.desc ++ ('\n' :: ' ' :: ' ' :: pystrip (normLine l)) } ] } := by
  unfold processLine processLineO
  dsimp only
  rw [if_neg hsig, hp, hr, hs, if_neg hex,
    if_neg (by simp [hie])]
  simp only [hie, Bool.false_eq_true, if_false]
  rw [if_pos ⟨hirl, hd⟩, if_neg (by simp [hret]), hret, updLastRet_concat]
  rfl

theorem processLine_exOpen (st : PState) (l : List Char)
    (hsig : ¬(st.signature = [] ∧ (containsSub "world.".data (normLine l) = true
      ∨ containsSub "utils.".data (normLine l) = true)))
    (hp : matchParam (normLine l) = none)
    (hr : matchReturn (normLine l) = none)
    (hs : matchSee (normLine l) = none)
    (hex : pystrip (normLine l) = "@example".data) :
    processLine st l = { st with examples := exFlush st, current_example := [],
                                 in_example := true, in_return_list := false } := by
  unfold processLine processLineO
  dsimp only
  rw [if_neg hsig, hp, hr, hs, if_pos hex]
  rfl

theorem processLine_exAppend (st : PState) (l : List Char)
    (hsig : ¬(st.signature = [] ∧ (containsSub "world.".data (normLine l) = true
      ∨ containsSub "utils.".data (normLine l) = true)))
    (hp : matchParam (normLine l) = none)
    (hr : matchReturn (normLine l) = none)
    (hs : matchSee (normLine l) = none)
    (hex : pystrip (normLine l) ≠ "@example".data)
    (hie : st.in_example = true)
    (hat : startsAt (normLine l) = false)
    (hne : normLine l ≠ []) :
    processLine st l = { st with current_example := st.current_example ++ [normLine l] } := by
  unfold processLine processLineO
  dsimp only
  rw [if_neg hsig, hp, hr, hs, if_neg hex,
    if_pos ⟨hie, by simp [hat, hne]⟩]
  rfl

theorem processLine_atDrop (st : PState) (l : List Char)
    (hsig : ¬(st.signature = [] ∧ (containsSub "world.".data (normLine l) = true
      ∨ containsSub "utils.".data (normLine l) = true)))
    (hp : matchParam (normLine l) = none)
    (hr : matchReturn (normLine l) = none)
    (hs : matchSee (normLine l) = none)
    (hex : pystrip (normLine l) ≠ "@example".data)
    (hie : st.in_example = false)
    (hat : startsAt (normLine l) = true) :
    processLine st l = st := by
  obtain ⟨rr, hl⟩ := (startsAt_iff _).mp hat
  have hhead : (pystrip (normLine l)).head? = some '@' := by
    rw [hl]; exact pystrip_cons_head _ _ rfl
  have hnotnil : pystrip (normLine l) ≠ [] := by
    intro h; rw [h] at hhead; cases hhead
  unfold processLine processLineO
  dsimp only
  rw [if_neg hsig, hp, hr, hs, if_neg hex, if_neg (by simp [hie])]
  simp only [hie, Bool.false_eq_true, if_false]
  rw [if_neg (by rintro ⟨-, hdd⟩; rw [hhead] at hdd; cases hdd),
    if_neg (by rintro ⟨hdd, -⟩; exact hnotnil hdd),
    if_neg (by rw [hl]; rintro ⟨hdd, -⟩; simp [List.isPrefixOf] at hdd),
    if_neg (by simp [hat])]
  rfl

theorem processLine_descAppend (st : PState) (l : List Char)
    (hsig : ¬(st.signature = [] ∧ (containsSub "world.".data (normLine l) = true
      ∨ containsSub "utils.".data (normLine l) = true)))
    (hp : matchParam (normLine l) = none)
    (hr : matchReturn (normLine l) = none)
    (hs : matchSee (normLine l) = none)
    (hex : pystrip (normLine l) ≠ "@example".data)
    (hie : st.in_example = false)
    (hdash : ¬(st.in_return_list = true ∧ (pystrip (normLine l)).head? = some '-'))
    (hempty : ¬(pystrip (normLine l) = [] ∧ st.descLines = []))
    (hind : ¬("  ".data.isPrefixOf (normLine l) = true ∧ (st.params ≠ [] ∨ st.returns ≠ [])))
    (hat : startsAt (normLine l) = false) :
    processLine st l = { st with descLines := st.descLines ++ [pystrip (normLine l)] } := by
  unfold processLine processLineO
  dsimp only
  rw [if_neg hsig, hp, hr, hs, if_neg hex, if_neg (by simp [hie])]
  simp only [hie, Bool.false_eq_true, if_false]
  rw [if_neg hdash, if_neg hempty, if_neg hind, if_pos (by simp [hat])]
  rfl

/-- The continuation rules only edit the `desc` of an existing entry, so the
name/type spine of `params` is preserved. -/
theorem updLastParam_map_key (ps ps' : List Param) (e : List Char)
    (h : updLastParam ps e = some ps') :
    ps'.map (fun p => (p.name, p.type)) = ps.map (fun p => (p.name, p.type)) := by
  unfold updLastParam at h
  cases hg : ps.getLast? with
  | none => rw [hg] at h; cases h
  | some p =>
    rw [hg] at h
    obtain ⟨l2, rfl⟩ := List.getLast?_eq_some_iff.mp hg
    rw [List.dropLast_concat] at h
    injection h with h2
    subst h2
    simp

/-- For a line that is not a well-formed `@param` tag, no `params` entry is
added or removed (only the description of the last entry may grow). -/
theorem processLine_params_key (st : PState) (l : List Char)
    (hp : matchParam (normLine l) = none) :
    (processLine st l).params.map (fun p => (p.name, p.type))
      = st.params.map (fun p => (p.name, p.type)) := by
  unfold processLine processLineO
  dsimp only
  rw [hp]
  repeat' split
  all_goals (try rfl)
  all_goals (try (rename_i heq; cases heq))
  all_goals (try (cases hu : updLastParam st.params (' ' :: pystrip (normLine l)) with
    | none => simp [hu]
    | some ps2 => simp [hu, updLastParam_map_key _ _ _ hu]))
  all_goals (cases hu : updLastRet st.returns ('\n' :: ' ' :: ' ' :: pystrip (normLine l)) <;>
    simp [hu])

/-- Spine lemma for the parameter list: processing any sequence of lines, none
of whose well-formed `@param` lines contains a namespace token (so none is
captured as a signature), appends exactly the `(name, type)` pairs of those
lines, in order. -/
theorem params_spine (ls : List (List Char)) : ∀ st : PState,
    (∀ l ∈ ls, matchParam (normLine l) ≠ none →
      containsSub "world.".data (normLine l) = false
        ∧ containsSub "utils.".data (normLine l) = false) →
    (ls.foldl processLine st).params.map (fun p => (p.name, p.type))
      = st.params.map (fun p => (p.name, p.type))
        ++ ls.filterMap (fun l => (matchParam (normLine l)).map (fun x => (x.1, x.2.1))) := by
  induction ls with
  | nil => intro st _; simp
  | cons l ls ih =>
    intro st h
    rw [List.foldl_cons]
    cases hp : matchParam (normLine l) with
    | none =>
      rw [ih _ (fun x hx hv => h x (List.mem_cons_of_mem _ hx) hv),
        processLine_params_key st l hp]
      simp [List.filterMap_cons, hp]
    | some t =>
      obtain ⟨nm, ty, d⟩ := t
      have hc := h l (List.mem_cons_self _ _) (by rw [hp]; simp)
      have hstep := processLine_param st l nm ty d
        (by
          rintro ⟨-, h1 | h1⟩
          · rw [hc.1] at h1; cases h1
          · rw [hc.2] at h1; cases h1) hp
      rw [hstep, ih _ (fun x hx hv => h x (List.mem_cons_of_mem _ hx) hv)]
      simp [List.filterMap_cons, hp]

/-- Folding any number of dash-prefixed return-list lines appends each bullet,
newline-joined and two-space indented, to the description of the last return
entry, and touches nothing else of the returns list.  Each line's last
hypothesis says it is not captured as the signature: either a signature is
already set, or the line contains no namespace token. -/
theorem dash_fold (dls : List (List Char)) : ∀ (st : PState) (R : List Ret) (e : Ret),
    st.in_example = false → st.in_return_list = true →
    st.returns = R ++ [e] →
    (∀ l ∈ dls, matchParam (normLine l) = none ∧ matchReturn (normLine l) = none
      ∧ matchSee (normLine l) = none ∧ pystrip (normLine l) ≠ "@example".data
      ∧ (pystrip (normLine l)).head? = some '-'
      ∧ (st.signature = [] → containsSub "world.".data (normLine l) = false
          ∧ containsSub "utils.".data (normLine l) = false)) →
    (dls.foldl processLine st).returns
      = R ++ [ { e with desc := (e.desc
          ++ flatJoin (dls.map (fun l => '\n' :: ' ' :: ' ' :: pystrip (normLine l)))) } ] := by
  induction dls with
  | nil =>
    intro st R e _ _ h4 _
    simpa [flatJoin] using h4
  | cons l dls ih =>
    intro st R e h2 h3 h4 h5
    obtain ⟨hp, hr, hs, hex, hd, hns⟩ := h5 l (List.mem_cons_self _ _)
    have hsig : ¬(st.signature = [] ∧ (containsSub "world.".data (normLine l) = true
        ∨ containsSub "utils.".data (normLine l) = true)) := by
      rintro ⟨hemp, hor⟩
      obtain ⟨hw, hu⟩ := hns hemp
      rcases hor with h | h
      · rw [hw] at h; cases h
      · rw [hu] at h; cases h
    rw [List.foldl_cons, processLine_dash st l R e hsig hp hr hs hex h2 h3 hd h4]
    rw [ih { st with returns :=
          R ++ [ { e with desc := e.desc ++ ('\n' :: ' ' :: ' ' :: pystrip (normLine l)) } ] }
        R { e with desc := e.desc ++ ('\n' :: ' ' :: ' ' :: pystrip (normLine l)) }
        h2 h3 rfl (fun x hx => h5 x (List.mem_cons_of_mem _ hx))]
    simp [flatJoin]

/-- While `inExample` is set, a run of non-tag non-empty lines is appended
verbatim (after normalisation) to the example buffer and changes nothing
else.  Each line's last hypothesis says it is not captured as the signature:
either a signature is already set, or the line contains no namespace
token. -/
theorem ex_fold (body : List (List Char)) : ∀ st : PState,
    st.in_example = true →
    (∀ b ∈ body, matchParam (normLine b) = none ∧ matchReturn (normLine b) = none
      ∧ matchSee (normLine b) = none ∧ pystrip (normLine b) ≠ "@example".data
      ∧ startsAt (normLine b) = false ∧ normLine b ≠ []
      ∧ (st.signature = [] → containsSub "world.".data (normLine b) = false
          ∧ containsSub "utils.".data (normLine b) = false)) →
    body.foldl processLine st
      = { st with current_example := st.current_example ++ body.map normLine } := by
  induction body with
  | nil => intro st _ _; simp
  | cons b body ih =>
    intro st h2 h3
    obtain ⟨hp, hr, hs, hex, hat, hne, hns⟩ := h3 b (List.mem_cons_self _ _)
    have hsig : ¬(st.signature = [] ∧ (containsSub "world.".data (normLine b) = true
        ∨ containsSub "utils.".data (normLine b) = true)) := by
      rintro ⟨hemp, hor⟩
      obtain ⟨hw, hu⟩ := hns hemp
      rcases hor with h | h
      · rw [hw] at h; cases h
      · rw [hu] at h; cases h
    rw [List.foldl_cons, processLine_exAppend st b hsig hp hr hs hex h2 hat hne,
      ih { st with current_example := st.current_example ++ [normLine b] }
        h2 (fun x hx => h3 x (List.mem_cons_of_mem _ hx))]
    simp

theorem takeUntilClose_spec (s : List Char) : ∀ d r,
    takeUntilClose s = some (d, r) → s = d ++ '*' :: '/' :: r := by
  induction s with
  | nil => intro d r h; simp [takeUntilClose] at h
  | cons c rest ih =>
    intro d r h
    cases rest with
    | nil => simp [takeUntilClose] at h
    | cons c2 rest2 =>
      unfold takeUntilClose at h
      split at h
      · rename_i hcd
        simp only [Option.some.injEq, Prod.mk.injEq] at h
        obtain ⟨hd, hr⟩ := h
        subst hd; subst hr
        obtain ⟨h1, h2⟩ := hcd
        subst h1; subst h2
        rfl
      · cases htc : takeUntilClose (c2 :: rest2) with
        | none => rw [htc] at h; cases h
        | some p =>
          obtain ⟨acc, rr⟩ := p
          rw [htc] at h
          simp only [Option.some.injEq, Prod.mk.injEq] at h
          obtain ⟨hd, hr⟩ := h
          subst hd; subst hr
          rw [List.cons_append, ← ih _ _ htc]

theorem tryMatch_spec (s d n r : List Char) (h : tryMatch s = some (d, n, r)) :
    (∃ w, n = 'L' :: '_' :: w ∧ w ≠ []) ∧ r <:+ s ∧ r.length < s.length := by
  unfold tryMatch at h
  split at h
  case isFalse => cases h
  case isTrue hpre =>
    cases htc : takeUntilClose (s.drop 3) with
    | none => rw [htc] at h; cases h
    | some p =>
      obtain ⟨doc, r1⟩ := p
      rw [htc] at h
      dsimp only at h
      split at h
      case isFalse => cases h
      case isTrue hc1 =>
        split at h
        case isFalse => cases h
        case isTrue hc2 =>
          split at h
          case isFalse => cases h
          case isTrue hc3 =>
            split at h
            case isFalse => cases h
            case isTrue hc4 =>
              simp only [Option.some.injEq, Prod.mk.injEq] at h
              obtain ⟨hd, hn, hr⟩ := h
              obtain ⟨t, ht⟩ := List.isPrefixOf_iff_prefix.mp hpre
              have hdrop : s.drop 3 = t := by rw [← ht]; simp
              have hr1 : r1 <:+ s.drop 3 := by
                rw [takeUntilClose_spec _ _ _ htc]
                exact ⟨doc ++ ['*', '/'], by simp⟩
              have hchain : r <:+ r1 := by
                rw [← hr]
                exact (List.drop_suffix 9 _).trans <| (List.dropWhile_suffix _).trans
                  <| (List.drop_suffix 1 _).trans <| (List.dropWhile_suffix _).trans
                  <| (List.dropWhile_suffix _).trans <| (List.drop_suffix 2 _).trans
                  <| (List.dropWhile_suffix _).trans <| (List.drop_suffix 3 _).trans
                  <| (List.dropWhile_suffix _)
              have hrs3 : r <:+ s.drop 3 := hchain.trans hr1
              refine ⟨⟨_, hn.symm, hc3.1⟩, ?_, ?_⟩
              · exact hrs3.trans (List.drop_suffix 3 s)
              · have h1 := hrs3.length_le
                have h2 : s.length = 3 + t.length := by
                  rw [← ht]
                  simp only [List.length_append, List.length_cons, List.length_nil]
                simp only [List.length_drop] at h1
                omega

/-- Every triple emitted by the scanner is a real pattern match: its recorded
offset is an absolute position in the scanned text at which `tryMatch`
succeeds with exactly that docstring and name. -/
theorem scanAux_sound : ∀ (fuel : Nat) (s : List Char) (pos : Nat)
    (t : List Char × List Char × Nat), t ∈ scanAux fuel s pos →
    ∃ k r2, t.2.2 = pos + k ∧ tryMatch (s.drop k) = some (t.1, t.2.1, r2) := by
  intro fuel
  induction fuel with
  | zero => intro s pos t ht; simp [scanAux] at ht
  | succ fuel ih =>
    intro s pos t ht
    unfold scanAux at ht
    cases s with
    | nil => simp at ht
    | cons c rest =>
      cases htm : tryMatch (c :: rest) with
      | some trip =>
        obtain ⟨doc, nm, r⟩ := trip
        rw [htm] at ht
        rcases List.mem_cons.mp ht with h1 | h1
        · subst h1; exact ⟨0, r, by simp, by simpa using htm⟩
        · obtain ⟨k2, r2, hk, htm2⟩ := ih r _ t h1
          obtain ⟨u, hu⟩ := (tryMatch_spec _ _ _ _ htm).2.1
          have hul : u.length = (c :: rest).length - r.length := by
            rw [← hu]; simp
          have hdrop : (c :: rest).drop ((c :: rest).length - r.length) = r := by
            rw [← hul, ← hu, List.drop_left]
          refine ⟨(c :: rest).length - r.length + k2, r2, by rw [hk]; omega, ?_⟩
          rw [← List.drop_drop, hdrop]
          exact htm2
      | none =>
        rw [htm] at ht
        obtain ⟨k2, r2, hk, htm2⟩ := ih rest (pos + 1) t ht
        exact ⟨k2 + 1, r2, by rw [hk]; omega, htm2⟩

theorem scanAux_pos_ge (fuel : Nat) (s : List Char) (pos : Nat)
    (t : List Char × List Char × Nat) (ht : t ∈ scanAux fuel s pos) : pos ≤ t.2.2 := by
  obtain ⟨k, r2, hk, -⟩ := scanAux_sound fuel s pos t ht
  omega

/-- The emitted offsets are strictly increasing: matches come in document
order. -/
theorem scanAux_chain : ∀ (fuel : Nat) (s : List Char) (pos : Nat),
    List.Chain' (fun a b => a.2.2 < b.2.2) (scanAux fuel s pos) := by
  intro fuel
  induction fuel with
  | zero => intro s pos; simp [scanAux]
  | succ fuel ih =>
    intro s pos
    unfold scanAux
    cases s with
    | nil => simp
    | cons c rest =>
      cases htm : tryMatch (c :: rest) with
      | some trip =>
        obtain ⟨doc, nm, r⟩ := trip
        dsimp only
        refine List.chain'_cons'.mpr ⟨?_, ih _ _⟩
        intro y hy
        have hmem := List.mem_of_mem_head? hy
        have hge := scanAux_pos_ge fuel r _ y hmem
        have hlt := (tryMatch_spec _ _ _ _ htm).2.2
        have hlen : r.length < (c :: rest).length := hlt
        have hfst : (doc, nm, pos).2.2 = pos := rfl
        omega
      | none =>
        dsimp only
        exact ih rest (pos + 1)

/-- If the pattern matches nowhere, the scanner yields nothing. -/
theorem scanAux_empty : ∀ (fuel : Nat) (s : List Char) (pos : Nat),
    (∀ k, tryMatch (s.drop k) = none) → scanAux fuel s pos = [] := by
  intro fuel
  induction fuel with
  | zero => intro s pos _; simp [scanAux]
  | succ fuel ih =>
    intro s pos h
    unfold scanAux
    cases s with
    | nil => simp
    | cons c rest =>
      have h0 := h 0
      simp only [List.drop_zero] at h0
      rw [h0]
      exact ih rest (pos + 1) (fun k => h (k + 1))

theorem escPipe_nil : escPipe [] = [] := rfl

theorem escPipe_cons (c : Char) (rest : List Char) :
    escPipe (c :: rest)
      = if c = '|' then '\\' :: '|' :: escPipe rest else c :: escPipe rest := by
  show replaceSubFuel '|' [] ['\\', '|'] (c :: rest).length (c :: rest) = _
  rw [List.length_cons]
  simp only [replaceSubFuel, List.isPrefixOf, Bool.and_true, List.length_nil,
    List.drop_zero]
  by_cases hc : c = '|'
  · subst hc; simp [escPipe, replaceSub]
  · simp only [beq_iff_eq]
    rw [if_neg (show ¬('|' = c) from fun h => hc h.symm), if_neg hc]
    rfl

theorem replaceNl_nil : replaceNl [] = [] := rfl

theorem replaceNl_cons (a : Char) (x : List Char) :
    replaceNl (a :: x) = (if a = '\n' then ' ' else a) :: replaceNl x := by
  show replaceSubFuel '\n' [] [' '] (a :: x).length (a :: x) = _
  rw [List.length_cons]
  simp only [replaceSubFuel, List.isPrefixOf, Bool.and_true, List.length_nil,
    List.drop_zero]
  by_cases ha : a = '\n'
  · subst ha; simp [replaceNl, replaceSub]
  · simp only [beq_iff_eq]
    rw [if_neg (show ¬('\n' = a) from fun h => ha h.symm), if_neg ha]
    rfl

theorem noUPAux_mono (l : List Char) : ∀ b : Bool,
    noUPAux false l = true → noUPAux b l = true := by
  induction l with
  | nil => intro b _; rfl
  | cons c rest ih =>
    intro b h
    rw [noUPAux] at h ⊢
    by_cases hc : c = '|'
    · rw [if_pos hc] at h
      simp at h
    · rw [if_neg hc] at h ⊢
      exact h

theorem noUP_cons (c : Char) (l : List Char) (hc : c ≠ '|')
    (h : noUnescapedPipe l = true) : noUnescapedPipe (c :: l) = true := by
  unfold noUnescapedPipe at h ⊢
  rw [noUPAux, if_neg hc]
  exact noUPAux_mono l _ h

theorem noUP_escPipe (l : List Char) : noUnescapedPipe (escPipe l) = true := by
  induction l with
  | nil => rw [escPipe_nil]; rfl
  | cons c rest ih =>
    rw [escPipe_cons]
    by_cases hc : c = '|'
    · subst hc
      rw [if_pos rfl]
      unfold noUnescapedPipe at ih ⊢
      rw [noUPAux, if_neg (by decide), noUPAux, if_pos rfl]
      simpa using ih
    · rw [if_neg hc]
      exact noUP_cons c _ hc ih

theorem noUP_replaceNl_escPipe (l : List Char) :
    noUnescapedPipe (replaceNl (escPipe l)) = true := by
  induction l with
  | nil => rw [escPipe_nil, replaceNl_nil]; rfl
  | cons c rest ih =>
    rw [escPipe_cons]
    by_cases hc : c = '|'
    · subst hc
      rw [if_pos rfl, replaceNl_cons, replaceNl_cons,
        if_neg (by decide : ¬('\\' : Char) = '\n'), if_neg (by decide : ¬('|' : Char) = '\n')]
      unfold noUnescapedPipe at ih ⊢
      rw [noUPAux, if_neg (by decide), noUPAux, if_pos rfl]
      simpa using ih
    · rw [if_neg hc, replaceNl_cons]
      refine noUP_cons _ _ ?_ ih
      split
      · decide
      · exact hc

theorem splitOnChar_ne_nil (sep : Char) (l : List Char) : splitOnChar sep l ≠ [] := by
  cases l with
  | nil => simp [splitOnChar]
  | cons c rest =>
    rw [splitOnChar]
    split
    · simp
    · split
      · simp
      · simp

theorem splitOnChar_headD (sep : Char) (l : List Char) :
    (splitOnChar sep l).headD [] = l.takeWhile (fun c => !(c == sep)) := by
  induction l with
  | nil => rfl
  | cons c rest ih =>
    rw [splitOnChar, List.takeWhile_cons]
    by_cases hc : c = sep
    · subst hc
      rw [if_pos rfl]
      simp
    · rw [if_neg hc]
      cases hsp : splitOnChar sep rest with
      | nil => exact absurd hsp (splitOnChar_ne_nil sep rest)
      | cons h t =>
        rw [hsp] at ih
        simp only [List.headD_cons] at ih
        simp [hc, ih]

/-! ## Claims -/

/-- C10: the docstring parser is total.  The instrumented loop, in which every
access to the most recently appended parameter or return entry returns `none`
when the corresponding list is empty, never actually returns `none` on any
input: each such access in the code sits behind a non-emptiness guard, so
`parse_docstring` always returns a record and never raises. -/
theorem c10_parser_total (comment : List Char) :
    parseDocstringO comment = some (parseStateOf comment)
      ∧ parse_docstring comment = finalize (parseStateOf comment) := by
  constructor
  · unfold parseDocstringO parseStateOf
    exact foldlM_processLineO_eq _ _
  · rfl

/-- C8: the category-index summary cell content (before markdown pipe
escaping) is exactly the first line of the description when that line has
length at most 80, and otherwise its first 77 characters followed by an
ellipsis; `specSummary` is written from the words of the claim,
`truncFirstLine` from the code. -/
theorem c8_truncation (f : LuaFunction) : truncFirstLine f = specSummary f := by
  unfold truncFirstLine specSummary
  by_cases hd : f.description = []
  · rw [hd]
    simp [splitOnChar, List.takeWhile]
  · rw [if_pos hd, splitOnChar_headD]
    set fl := f.description.takeWhile (fun c => !(c == '\n')) with hfl
    by_cases hlen : fl.length ≤ 80
    · rw [if_neg (by omega), if_pos hlen]
    · rw [if_pos (by omega), if_neg hlen]

/-- C3 (counterexample): the claim that every pipe in any cell content is
escaped is false: the type cell of the per-function parameter table is
rendered verbatim.  For a parameter of type `a|b` the rendered page contains
the raw row fragment with an unescaped pipe and nowhere the escaped
spelling. -/
theorem c3_counterexample :
    containsSub c3rawRow c3page = true ∧ containsSub c3escType c3page = false := by
  constructor
  · decide
  · decide

/-- C3 (amended): the renderers escape every pipe in the description cells
(the per-function parameter description, the category-index summary, and the
index category description), but the parameter type cell is rendered
verbatim.  The three expressions below are exactly the cell contents built by
`paramRow`, `categoryRow` and `indexCatRow`. -/
theorem c3_escaped_desc_cells (p : Param) (f : LuaFunction) (c : Category) :
    noUnescapedPipe (replaceNl (escPipe p.desc)) = true
      ∧ noUnescapedPipe (escPipe (truncFirstLine f)) = true
      ∧ noUnescapedPipe (escPipe c.description) = true :=
  ⟨noUP_replaceNl_escPipe p.desc, noUP_escPipe (truncFirstLine f),
    noUP_escPipe c.description⟩

/-- C1 (counterexample): on the exact input of the claim, where the interior
lines are indented by a single space and carry no asterisk marker, the
anchored tag patterns do not match (they require the tag at the very start of
the normalised line), so both the parameter and the return lists come out
empty and the tag lines land in the description instead. -/
theorem c1_counterexample :
    (extract_functions_from_file srcName c1input).map
        (fun f => (f.name, f.signature, f.params, f.returns))
      = [( "Note".data, "world.Note(text)".data, ([] : List Param), ([] : List Ret))] := by
  decide

/-- C1 (amended): with the interior lines written with the asterisk
continuation marker (` * ...`), as the documented sources write them,
extraction and parsing yield exactly the claimed record: name `Note`,
signature `world.Note(text)`, one parameter `(text, string, text to show)`
and one return `(boolean, success)`. -/
theorem c1_extraction_record :
    (extract_functions_from_file srcName c1fixed).map
        (fun f => (f.name, f.signature, f.params, f.returns))
      = [( "Note".data, "world.Note(text)".data,
          [⟨ "text".data, "string".data, "text to show".data⟩],
          [⟨ "boolean".data, "success".data⟩])] := by
  decide

/-- C2 (counterexample): a malformed `@param` line (no parenthesised type) is
not appended to the running description: it is silently dropped, because the
default rule only accepts lines that do not start with `@`.  Here the block
`world.Foo()` / `@param x missing type` / `hello` parses to a description
containing only `hello`. -/
theorem c2_counterexample :
    (parse_docstring c2input).params = []
      ∧ (parse_docstring c2input).description = "hello".data
      ∧ containsSub "@param".data (parse_docstring c2input).description = false := by
  refine ⟨by decide, by decide, by decide⟩

/-- C2 (amended): the parser never rejects a line; a line matching no
recognised tag shape falls
through to the default rule, which appends it to the running description only
when it does not start with `@`; a malformed `@`-prefixed tag line is
silently discarded, leaving the state unchanged. -/
theorem c2_malformed_line_handling (st : PState) (l : List Char)
    (hsig : ¬(st.signature = [] ∧ (containsSub "world.".data (normLine l) = true
      ∨ containsSub "utils.".data (normLine l) = true)))
    (hp : matchParam (normLine l) = none)
    (hr : matchReturn (normLine l) = none)
    (hs : matchSee (normLine l) = none)
    (hex : pystrip (normLine l) ≠ "@example".data)
    (hie : st.in_example = false) :
    (startsAt (normLine l) = true → processLine st l = st)
      ∧ (startsAt (normLine l) = false →
          ¬(st.in_return_list = true ∧ (pystrip (normLine l)).head? = some '-') →
          ¬(pystrip (normLine l) = [] ∧ st.descLines = []) →
          ¬("  ".data.isPrefixOf (normLine l) = true ∧ (st.params ≠ [] ∨ st.returns ≠ [])) →
          processLine st l = { st with descLines := st.descLines ++ [pystrip (normLine l)] }) := by
  constructor
  · intro hat
    exact processLine_atDrop st l hsig hp hr hs hex hie hat
  · intro hat hdash hempty hind
    exact processLine_descAppend st l hsig hp hr hs hex hie hdash hempty hind hat

/-- Witness for `c2_malformed_line_handling` at the line
`@param x missing type` (dropped) and at `just text` (appended). -/
theorem c2_malformed_line_witness :
    processLine { signature := "world.Foo()".data } ( "@param x missing type".data)
        = { signature := "world.Foo()".data }
      ∧ processLine { signature := "world.Foo()".data } ( "just text".data)
        = { signature := "world.Foo()".data, descLines := [ "just text".data] } := by
  constructor
  · exact (c2_malformed_line_handling { signature := "world.Foo()".data }
      ( "@param x missing type".data) (by decide) (by decide) (by decide) (by decide)
      (by decide) (by decide)).1 (by decide)
  · have h := (c2_malformed_line_handling { signature := "world.Foo()".data }
      ( "just text".data) (by decide) (by decide) (by decide) (by decide)
      (by decide) (by decide)).2 (by decide) (by decide) (by decide) (by decide)
    rw [h]
    decide

/-- C4 (counterexample): a well-formed `@param` line that contains the token
`world.` and appears before any signature has been captured is consumed by
the signature rule (which has higher precedence), so the parameters list
stays empty even though the block contains one well-formed `@param` tag. -/
theorem c4_counterexample :
    (matchParam (normLine c4input)).isSome = true
      ∧ (parse_docstring c4input).params = []
      ∧ (parse_docstring c4input).signature = c4input := by
  refine ⟨by decide, by decide, by decide⟩

/-- C4 (amended): provided no well-formed `@param` line contains a namespace
token (`world.` or `utils.`) — which would let the signature rule capture it —
the parsed parameter list has exactly one entry per well-formed `@param`
line, in source order, with the matching names and types; in particular with
zero such lines it is empty. -/
theorem c4_param_count (comment : List Char)
    (h : ∀ l ∈ splitOnChar '\n' (pystrip comment), matchParam (normLine l) ≠ none →
      containsSub "world.".data (normLine l) = false
        ∧ containsSub "utils.".data (normLine l) = false) :
    (parse_docstring comment).params.map (fun p => (p.name, p.type))
      = (splitOnChar '\n' (pystrip comment)).filterMap
          (fun l => (matchParam (normLine l)).map (fun x => (x.1, x.2.1))) := by
  have hmain := params_spine (splitOnChar '\n' (pystrip comment)) initState h
  unfold parse_docstring parseStateOf finalize
  simpa [initState] using hmain

/-- Witness for `c4_param_count`: a two-parameter block yields exactly the two
`(name, type)` pairs in order. -/
theorem c4_param_count_witness :
    (parse_docstring ( "Top here.\n@param a (string) x\n@param b (number) y".data)).params.map
        (fun p => (p.name, p.type))
      = [( "a".data, "string".data), ( "b".data, "number".data)] := by
  rw [c4_param_count _ (by decide)]
  decide

/-- C5 (counterexample): the claim fails as stated.  In the block
`@return (number) code` / `- see world.Foo` the tag line is parsed as a
return tag, and is immediately followed by a dash-prefixed line, yet the
single return entry's description stays `code`: no signature had been
captured and the bullet contains `world.`, so the signature rule (which
precedes the return-list rule) consumes the bullet as the signature. -/
theorem c5_counterexample :
    (parse_docstring c5input).returns = [⟨ "number".data, "code".data⟩]
      ∧ (parse_docstring c5input).signature = "- see world.Foo".data := by
  refine ⟨by decide, by decide⟩

/-- C5 (amended): when a `@return` tag line is immediately followed by
dash-prefixed bullet lines, and neither the tag line nor any bullet line is
captured as the signature (for each such line: a signature has already been
captured, or the line contains no `world.`/`utils.` token), parsing appends
one single return entry whose description is the tag's own description
followed by all the bullet lines, each prefixed by a newline and a two-space
indent. -/
theorem c5_return_list (st : PState) (rl : List Char) (dls : List (List Char))
    (ty d : List Char)
    (hrl : ¬(st.signature = [] ∧ (containsSub "world.".data (normLine rl) = true
      ∨ containsSub "utils.".data (normLine rl) = true)))
    (hpm : matchParam (normLine rl) = none)
    (hrm : matchReturn (normLine rl) = some (ty, d))
    (hdls : ∀ l ∈ dls, matchParam (normLine l) = none ∧ matchReturn (normLine l) = none
      ∧ matchSee (normLine l) = none ∧ pystrip (normLine l) ≠ "@example".data
      ∧ (pystrip (normLine l)).head? = some '-'
      ∧ (st.signature = [] → containsSub "world.".data (normLine l) = false
          ∧ containsSub "utils.".data (normLine l) = false)) :
    (List.foldl processLine st (rl :: dls)).returns
      = st.returns ++ [⟨ty, pystrip d
          ++ flatJoin (dls.map (fun l => '\n' :: ' ' :: ' ' :: pystrip (normLine l)))⟩] := by
  rw [List.foldl_cons, processLine_return st rl ty d hrl hpm hrm]
  exact dash_fold dls { st with in_example := false, in_return_list := true, returns := st.returns ++ [⟨ty, pystrip d⟩] } st.returns ⟨ty, pystrip d⟩ rfl rfl rfl hdls

/-- Witness for `c5_return_list`, exercising both disjuncts of the
no-signature-capture hypothesis: with no signature captured at all,
`@return (number) code` followed by two token-free bullet lines yields one
entry with the bullets newline-joined and two-space indented. -/
theorem c5_return_list_witness :
    (List.foldl processLine initState
        ( "@return (number) code".data :: [ " - 1: ok".data, " - 2: fail".data])).returns
      = [⟨ "number".data, "code\n  - 1: ok\n  - 2: fail".data⟩] := by
  rw [c5_return_list initState ( "@return (number) code".data)
    [ " - 1: ok".data, " - 2: fail".data] ( "number".data) ( "code".data)
    (by decide) (by decide) (by decide) (by decide)]
  decide

/-- C7 (counterexample): in a block ending `@example` / `world.Note(1)` /
`print(x)` there is no further tag, yet the parsed examples retain only
`print(x)`: the first body line contains `world.` and no signature had been
captured, so the signature rule (which precedes the example-body rule)
consumes it, and the flushed code block is not the one in the comment. -/
theorem c7_counterexample :
    (parse_docstring c7input).examples = [ "print(x)".data]
      ∧ (parse_docstring c7input).signature = "world.Note(1)".data
      ∧ ¬( "world.Note(1)\nprint(x)".data ∈ (parse_docstring c7input).examples) := by
  refine ⟨by decide, by decide, by decide⟩

/-- C7 (amended): when the final lines of a block are an `@example` tag
followed by one or more non-empty body lines, none of which is a tag line or
is captured as the signature (for the tag line and each body line: a
signature was already captured before the `@example`, or the line contains no
`world.`/`utils.` token), the buffered body lines are flushed at the end of
the pass: the examples list gains exactly the newline-joined body block,
after any earlier flush triggered by the `@example` line itself. -/
theorem c7_example_flush (st : PState) (exl : List Char) (body : List (List Char))
    (hsig : ¬(st.signature = [] ∧ (containsSub "world.".data (normLine exl) = true
      ∨ containsSub "utils.".data (normLine exl) = true)))
    (hpm : matchParam (normLine exl) = none)
    (hrm : matchReturn (normLine exl) = none)
    (hsm : matchSee (normLine exl) = none)
    (hexl : pystrip (normLine exl) = "@example".data)
    (hbody : body ≠ [])
    (hb : ∀ b ∈ body, matchParam (normLine b) = none ∧ matchReturn (normLine b) = none
      ∧ matchSee (normLine b) = none ∧ pystrip (normLine b) ≠ "@example".data
      ∧ startsAt (normLine b) = false ∧ normLine b ≠ []
      ∧ (st.signature = [] → containsSub "world.".data (normLine b) = false
          ∧ containsSub "utils.".data (normLine b) = false)) :
    (finalize (List.foldl processLine st (exl :: body))).examples
      = exFlush st ++ [joinLines (body.map normLine)] := by
  rw [List.foldl_cons, processLine_exOpen st exl hsig hpm hrm hsm hexl,
    ex_fold body { st with examples := exFlush st, current_example := [], in_example := true, in_return_list := false } rfl hb]
  unfold finalize exFlush
  dsimp only
  simp [hbody]

/-- Witness for `c7_example_flush`, exercising the no-prior-signature case:
in a block that never captures a signature, an `@example` followed by two
plain token-free code lines at the end still yields exactly that code
block. -/
theorem c7_example_flush_witness :
    (finalize (List.foldl processLine initState
        ( "@example".data :: [ "print(1)".data, "print(2)".data]))).examples
      = [ "print(1)\nprint(2)".data] := by
  rw [c7_example_flush initState ( "@example".data)
    [ "print(1)".data, "print(2)".data]
    (by decide) (by decide) (by decide) (by decide) (by decide) (by decide) (by decide)]
  decide

theorem matchNameFromSig_ne_nil (sig nm : List Char)
    (h : matchNameFromSig sig = some nm) : nm ≠ [] := by
  unfold matchNameFromSig at h
  dsimp only at h
  split at h
  · split at h
    · cases h
    · rename_i hw
      injection h with h2
      subst h2
      exact hw
  · split at h
    · split at h
      · cases h
      · rename_i hw
        injection h with h2
        subst h2
        exact hw
    · cases h

/-- C6: every function record produced by extraction has a non-empty name:
either the name is a non-empty identifier taken from a namespace-prefixed
signature, or it is the entry-point identifier with its `L_` prefix stripped,
and the extraction pattern guarantees at least one word character after
`L_`. -/
theorem c6_name_nonempty (fname content : List Char) (f : LuaFunction)
    (hf : f ∈ extract_functions_from_file fname content) : f.name ≠ [] := by
  unfold extract_functions_from_file at hf
  obtain ⟨t, ht, rfl⟩ := List.mem_map.mp hf
  unfold extractTriples at ht
  obtain ⟨t2, ht2, heq⟩ := List.mem_map.mp ht
  obtain ⟨k, r2, hk, htm⟩ := scanAux_sound content.length content 0 t2 ht2
  obtain ⟨⟨w, hw, hwne⟩, -, -⟩ := tryMatch_spec _ _ _ _ htm
  subst heq
  unfold mkFunction
  dsimp only
  have hfb : (if "L_".data.isPrefixOf t2.2.1 then t2.2.1.drop 2 else t2.2.1) ≠ [] := by
    rw [hw]
    simp [List.isPrefixOf, hwne]
  split
  · split
    · rename_i nm hnm
      exact matchNameFromSig_ne_nil _ _ hnm
    · exact hfb
  · exact hfb

/-- Witness for `c6_name_nonempty`: the record extracted from `c1fixed` has a
non-empty name. -/
theorem c6_name_nonempty_witness :
    ((extract_functions_from_file srcName c1fixed).headD { name := [] }).name ≠ [] :=
  c6_name_nonempty srcName c1fixed _ (by decide)

/-- C9: the extractor contract.  (a) The scanner emits its matches with
strictly increasing start offsets, so the triples come in document order;
(b) every produced triple corresponds to an actual occurrence of the pattern
at some offset `p`, and its line number is one plus the number of newline
characters before `p`; (c) a text in which the pattern matches at no offset
yields the empty sequence (and no error, the function being total). -/
theorem c9_extractor_contract (content : List Char) :
    List.Chain' (fun a b => a.2.2 < b.2.2) (scanMatches content)
      ∧ (∀ t ∈ extractTriples content, ∃ p r2,
          tryMatch (content.drop p) = some (t.1, t.2.1, r2)
            ∧ t.2.2 = (content.take p).count '\n' + 1)
      ∧ ((∀ k, tryMatch (content.drop k) = none) → extractTriples content = []) := by
  refine ⟨scanAux_chain content.length content 0, ?_, ?_⟩
  · intro t ht
    unfold extractTriples at ht
    obtain ⟨t2, ht2, rfl⟩ := List.mem_map.mp ht
    obtain ⟨k, r2, hk, htm⟩ := scanAux_sound content.length content 0 t2 ht2
    refine ⟨t2.2.2, r2, ?_, rfl⟩
    rw [show t2.2.2 = k from by omega]
    exact htm
  · intro h
    unfold extractTriples scanMatches
    rw [scanAux_empty content.length content 0 h]
    rfl

/-- Witness for `c9_extractor_contract`: the triple extracted from `c1fixed`
is a real match with the right line number, and `hello` (no match at any
offset) yields the empty sequence. -/
theorem c9_extractor_contract_witness :
    (∃ p r2, tryMatch (c1fixed.drop p)
          = some (((extractTriples c1fixed).headD ([], [], 0)).1,
              ((extractTriples c1fixed).headD ([], [], 0)).2.1, r2)
        ∧ ((extractTriples c1fixed).headD ([], [], 0)).2.2
            = (c1fixed.take p).count '\n' + 1)
      ∧ extractTriples c9empty = [] := by
  constructor
  · exact (c9_extractor_contract c1fixed).2.1 _ (by decide)
  · refine (c9_extractor_contract c9empty).2.2 ?_
    intro k
    match k with
    | 0 => decide
    | 1 => decide
    | 2 => decide
    | 3 => decide
    | 4 => decide
    | 5 => decide
    | n + 6 =>
      have h6 : c9empty.drop (n + 6) = [] :=
        List.drop_eq_nil_of_le (le_trans (by decide) (Nat.le_add_left 6 n))
      rw [h6]
      decide
